import Mathlib

set_option autoImplicit false

/-!
Shallow embedding of the entity-component framework in
`src/Game Entity Presentation/src/demo.cpp` (namespace `SpaceInvaders`).

Modelling conventions:
* `ComponentID` / `Group` are `std::size_t`; groups and component slots live in
  fixed capacity-32 bitsets/arrays (`maxComponents = maxGroups = 32`), so slot
  indices are `Fin 32` (indexing a `std::bitset<32>` / `std::array<_, 32>`
  outside `[0, 32)` is undefined behaviour and not part of the model).
* Heap identity (the C++ pointer value of an `Entity*` or `Component*`) is
  modelled by a natural-number id; the manager's `store` resolves entity ids,
  mirroring the fact that group buckets alias the very objects owned by the
  canonical collection.
* The `static` counter in `Internal::GetUniqueComponentID` and the per-type
  `static ComponentID typeID` of `GetComponentTypeID<T>` become an explicit
  `RegistryState` threaded through calls: the memo table `assigned` records,
  per instantiated type `T` (abstracted as a `Nat` tag), the ID its first call
  allocated.
* `assert` is modelled by `Option`: `none` is the assertion trap, which aborts
  without mutating anything.
-/

/-! ## Component-type ID registry (demo.cpp lines 42-77) -/

/-- State of the static registry: `lastID` is the `static ComponentID lastID`
counter of `Internal::GetUniqueComponentID` (initialised to `0`), and
`assigned` memoises, per template instantiation tag, the `static ComponentID
typeID` that its first call initialised. -/
structure RegistryState where
  lastID : Nat
  assigned : List (Nat × Nat)
  deriving Repr, DecidableEq

/-- The registry state at program start: counter `0`, no type registered. -/
def RegistryState.init : RegistryState := ⟨0, []⟩

/-- First-match association lookup, keyed by a type tag. -/
def lookupTag (t : Nat) : List (Nat × Nat) → Option Nat
  | [] => none
  | (k, v) :: rest => if t = k then some v else lookupTag t rest

/-- `Internal::GetUniqueComponentID`: `return lastID++`. -/
def GetUniqueComponentID (lastID : Nat) : Nat × Nat := (lastID, lastID + 1)

/-- `GetComponentTypeID<T>`: the first call for tag `t` initialises its static
`typeID` from `Internal::GetUniqueComponentID()`; later calls return the
memoised value and leave the state alone. -/
def GetComponentTypeID (t : Nat) (s : RegistryState) : Nat × RegistryState :=
  match lookupTag t s.assigned with
  | some id => (id, s)
  | none =>
      let (id, nextLast) := GetUniqueComponentID s.lastID
      (id, ⟨nextLast, (t, id) :: s.assigned⟩)

/-- Runs a sequence of `GetComponentTypeID` calls, keeping only the state. -/
def runCalls : List Nat → RegistryState → RegistryState
  | [], s => s
  | t :: ts, s => runCalls ts (GetComponentTypeID t s).2

/-- Registry well-formedness: every memoised ID is below the counter, the memo
table is functional in the tag, and distinct tags hold distinct IDs. -/
def RegWf (s : RegistryState) : Prop :=
  (∀ p ∈ s.assigned, p.2 < s.lastID) ∧
  (∀ p ∈ s.assigned, ∀ q ∈ s.assigned, p.1 = q.1 → p.2 = q.2) ∧
  (∀ p ∈ s.assigned, ∀ q ∈ s.assigned, p.2 = q.2 → p.1 = q.1)

instance (s : RegistryState) : Decidable (RegWf s) := by
  unfold RegWf; infer_instance

/-! ## Entity (demo.cpp lines 118-273) -/

/-- A component instance: its `GetComponentTypeID` slot and its heap identity
(the address `new T(...)` produced). -/
structure Component where
  typeId : Fin 32
  ref : Nat
  deriving Repr, DecidableEq

/-- The `Entity` state: `alive`/`active` flags (both default-true in the
source), the owned `components` vector in attachment order, the
`componentArray` direct-index table, the `componentBitset` presence bits, and
the `groupBitset` membership bits. -/
structure Entity where
  alive : Bool
  active : Bool
  components : List Component
  componentArray : Fin 32 → Option Nat
  componentBitset : Fin 32 → Bool
  groupBitset : Fin 32 → Bool

/-- A freshly constructed entity: `alive{true}`, `active{true}`, no
components, no groups. -/
def Entity.new : Entity :=
  { alive := true
    active := true
    components := []
    componentArray := fun _ => none
    componentBitset := fun _ => false
    groupBitset := fun _ => false }

instance : Inhabited Entity := ⟨Entity.new⟩

/-- `Entity::IsAlive`. -/
def Entity.IsAlive (e : Entity) : Bool := e.alive

/-- `Entity::Destroy`: `alive = false`. -/
def Entity.Destroy (e : Entity) : Entity := { e with alive := false }

/-- `Entity::IsActive`. -/
def Entity.IsActive (e : Entity) : Bool := e.active

/-- `Entity::Enable`. -/
def Entity.Enable (e : Entity) : Entity := { e with active := true }

/-- `Entity::Disable`. -/
def Entity.Disable (e : Entity) : Entity := { e with active := false }

/-- `Entity::HasComponent<T>`: query the bitset at `GetComponentTypeID<T>()`. -/
def Entity.HasComponent (e : Entity) (cid : Fin 32) : Bool :=
  e.componentBitset cid

/-- `Entity::HasGroup`. -/
def Entity.HasGroup (e : Entity) (g : Fin 32) : Bool := e.groupBitset g

/-- `Entity::AddComponent<T>`: asserts `!HasComponent<T>()` (trap modelled as
`none`), allocates the component (`ref` is the fresh heap address), appends it
to `components`, records it in the array and bitset, and returns the new state
together with the reference the C++ `return *c` hands back. -/
def Entity.AddComponent (e : Entity) (cid : Fin 32) (ref : Nat) :
    Option (Entity × Nat) :=
  if e.HasComponent cid then none
  else some
    ({ e with
        components := e.components ++ [⟨cid, ref⟩]
        componentArray := Function.update e.componentArray cid (some ref)
        componentBitset := Function.update e.componentBitset cid true }, ref)

/-- `Entity::GetComponent<T>`: asserts `HasComponent<T>()` (trap as `none`),
then reads the direct-index table. -/
def Entity.GetComponent (e : Entity) (cid : Fin 32) : Option Nat :=
  if e.HasComponent cid then e.componentArray cid else none

/-- `Entity::DelGroup`: clears the membership bit only; the manager is not
notified. -/
def Entity.DelGroup (e : Entity) (g : Fin 32) : Entity :=
  { e with groupBitset := Function.update e.groupBitset g false }

/-- Mutations callable on one entity between component queries (the framework
offers no component removal). `addComp` takes the trap branch into account:
a firing assertion aborts, leaving the entity as it was. -/
inductive EntityOp where
  | addComp (cid : Fin 32) (ref : Nat)
  | destroy
  | enable
  | disable
  | addGroupBit (g : Fin 32)
  | delGroupBit (g : Fin 32)
  deriving Repr, DecidableEq

/-- Applies one entity-level mutation. -/
def Entity.applyOp (e : Entity) : EntityOp → Entity
  | .addComp cid ref =>
      match e.AddComponent cid ref with
      | some (e2, _) => e2
      | none => e
  | .destroy => e.Destroy
  | .enable => e.Enable
  | .disable => e.Disable
  | .addGroupBit g => { e with groupBitset := Function.update e.groupBitset g true }
  | .delGroupBit g => e.DelGroup g

/-- Applies a sequence of entity-level mutations, left to right. -/
def Entity.applyOps (e : Entity) (ops : List EntityOp) : Entity :=
  ops.foldl Entity.applyOp e

/-! ## EntityManager (demo.cpp lines 282-374) -/

/-- The `EntityManager` state: the canonical owning collection `entities`
(ids, in insertion order), the heap `store` resolving every id to its entity
state, the 32 group buckets `groupedEntities` of non-owning back-references,
and the allocator for fresh entity ids (`new Entity` addresses). -/
structure EntityManager where
  entities : List Nat
  store : Nat → Entity
  groupedEntities : Fin 32 → List Nat
  nextId : Nat

/-- A manager with no entities. -/
def EntityManager.empty : EntityManager :=
  { entities := []
    store := fun _ => Entity.new
    groupedEntities := fun _ => []
    nextId := 0 }

/-- `EntityManager::AddEntity`: heap-allocate a fresh entity, append it to the
canonical collection, return (new manager state, its id). -/
def EntityManager.AddEntity (m : EntityManager) : EntityManager × Nat :=
  ({ m with
      entities := m.entities ++ [m.nextId]
      store := Function.update m.store m.nextId Entity.new
      nextId := m.nextId + 1 }, m.nextId)

/-- `EntityManager::AddToGroup`: `groupedEntities[group].emplace_back(entity)`
— appends unconditionally, no deduplication. -/
def EntityManager.AddToGroup (m : EntityManager) (eid : Nat) (g : Fin 32) :
    EntityManager :=
  { m with
      groupedEntities :=
        Function.update m.groupedEntities g (m.groupedEntities g ++ [eid]) }

/-- `EntityManager::GetEntitiesByGroup`: the live backing bucket. -/
def EntityManager.GetEntitiesByGroup (m : EntityManager) (g : Fin 32) :
    List Nat :=
  m.groupedEntities g

/-- Applies an in-place mutation to the entity object behind `eid` (the C++
methods mutate through the pointer; every alias observes the change). -/
def EntityManager.updateEntity (m : EntityManager) (eid : Nat)
    (f : Entity → Entity) : EntityManager :=
  { m with store := Function.update m.store eid (f (m.store eid)) }

/-- `Entity::AddGroup` (defined after the manager in the source): sets the
membership bit, then `manager.AddToGroup(this, group)`. -/
def EntityManager.EntityAddGroup (m : EntityManager) (eid : Nat) (g : Fin 32) :
    EntityManager :=
  (m.updateEntity eid fun e =>
      { e with groupBitset := Function.update e.groupBitset g true }).AddToGroup eid g

/-- `Entity::DelGroup` through the manager's store: bit cleared, buckets
untouched. -/
def EntityManager.EntityDelGroup (m : EntityManager) (eid : Nat) (g : Fin 32) :
    EntityManager :=
  m.updateEntity eid fun e => e.DelGroup g

/-- `Entity::Destroy` through the manager's store. -/
def EntityManager.DestroyEntity (m : EntityManager) (eid : Nat) : EntityManager :=
  m.updateEntity eid Entity.Destroy

/-- `Entity::Disable` through the manager's store. -/
def EntityManager.DisableEntity (m : EntityManager) (eid : Nat) : EntityManager :=
  m.updateEntity eid Entity.Disable

/-- `EntityManager::Refresh`: first, for every group `i < maxGroups`,
erase-remove from bucket `i` every entity with `!IsAlive() || !HasGroup(i)`;
then erase-remove from the canonical collection every entity with
`!IsAlive()`. `List.filter` keeps exactly the survivors of the
erase-remove idiom, in their original relative order. -/
def EntityManager.Refresh (m : EntityManager) : EntityManager :=
  let m1 := { m with
    groupedEntities := fun i =>
      (m.groupedEntities i).filter fun eid =>
        (m.store eid).IsAlive && (m.store eid).HasGroup i }
  { m1 with
      entities := m1.entities.filter fun eid => (m1.store eid).IsAlive }

/-- `Entity::Update`: observable trace of the component update hooks it
invokes, in attachment order (`for (auto& c : components) c->Update(ft)`),
tagged with the owning entity's identity. -/
def Entity.UpdateTrace (eid : Nat) (e : Entity) : List (Nat × Nat) :=
  e.components.map fun c => (eid, c.ref)

/-- `EntityManager::Update`: iterates the canonical collection in order and
calls `e->Update(frameTime)` exactly when `e->IsActive()`; the result is the
concatenated trace of component update hooks invoked. -/
def EntityManager.UpdateTrace (m : EntityManager) : List (Nat × Nat) :=
  m.entities.flatMap fun eid =>
    if (m.store eid).IsActive then Entity.UpdateTrace eid (m.store eid) else []

/-- A one-entity manager, used to instantiate manager-level theorems on a
concrete state: `AddEntity` on the empty manager allocates entity id `0`. -/
def managerW : EntityManager := (EntityManager.empty.AddEntity).1

/-! ## Registry lemmas -/

theorem lookupTag_mem {t v : Nat} : ∀ {l : List (Nat × Nat)},
    lookupTag t l = some v → (t, v) ∈ l := by
  intro l
  induction l with
  | nil => intro h; simp [lookupTag] at h
  | cons p rest ih =>
      intro h
      by_cases hk : t = p.1
      · simp [lookupTag, hk] at h
        subst hk h
        exact List.mem_cons_self _ _
      · simp [lookupTag, hk] at h
        exact List.mem_cons_of_mem _ (ih h)

theorem lookupTag_eq_none {t : Nat} : ∀ {l : List (Nat × Nat)},
    lookupTag t l = none → ∀ v, (t, v) ∉ l := by
  intro l
  induction l with
  | nil => intro _ v hv; simp at hv
  | cons p rest ih =>
      intro h v hv
      by_cases hk : t = p.1
      · simp [lookupTag, hk] at h
      · simp [lookupTag, hk] at h
        rcases List.mem_cons.mp hv with hv | hv
        · exact hk (congrArg Prod.fst hv)
        · exact ih h v hv

theorem regWf_preserved {s : RegistryState} (hwf : RegWf s) (t : Nat) :
    RegWf (GetComponentTypeID t s).2 := by
  obtain ⟨hlt, hfun, hinj⟩ := hwf
  cases hl : lookupTag t s.assigned with
  | some id =>
      simp only [GetComponentTypeID, hl]
      exact ⟨hlt, hfun, hinj⟩
  | none =>
      simp only [GetComponentTypeID, hl, GetUniqueComponentID]
      refine ⟨?_, ?_, ?_⟩
      · intro p hp
        rcases List.mem_cons.mp hp with rfl | hp
        · exact Nat.lt_succ_self _
        · exact Nat.lt_succ_of_lt (hlt p hp)
      · intro p hp q hq hpq
        rcases List.mem_cons.mp hp with rfl | hp <;>
          rcases List.mem_cons.mp hq with rfl | hq
        · rfl
        · exfalso
          have ht : t = q.1 := hpq
          have hq2 : (t, q.2) ∈ s.assigned := by
            rw [ht, Prod.mk.eta]; exact hq
          exact lookupTag_eq_none hl q.2 hq2
        · exfalso
          have ht : p.1 = t := hpq
          have hp2 : (t, p.2) ∈ s.assigned := by
            rw [← ht, Prod.mk.eta]; exact hp
          exact lookupTag_eq_none hl p.2 hp2
        · exact hfun p hp q hq hpq
      · intro p hp q hq hpq
        rcases List.mem_cons.mp hp with rfl | hp <;>
          rcases List.mem_cons.mp hq with rfl | hq
        · rfl
        · exfalso
          have hv : s.lastID = q.2 := hpq
          have := hlt q hq
          rw [← hv] at this
          exact Nat.lt_irrefl _ this
        · exfalso
          have hv : p.2 = s.lastID := hpq
          have := hlt p hp
          rw [hv] at this
          exact Nat.lt_irrefl _ this
        · exact hinj p hp q hq hpq

theorem lookupTag_preserved {s : RegistryState} {t v : Nat}
    (h : lookupTag t s.assigned = some v) (u : Nat) :
    lookupTag t (GetComponentTypeID u s).2.assigned = some v := by
  unfold GetComponentTypeID
  cases hl : lookupTag u s.assigned with
  | some id => exact h
  | none =>
      have htu : t ≠ u := by
        intro he; rw [he, hl] at h; exact Option.noConfusion h
      simpa [lookupTag, htu] using h

theorem regWf_runCalls {s : RegistryState} (hwf : RegWf s) (l : List Nat) :
    RegWf (runCalls l s) := by
  induction l generalizing s with
  | nil => exact hwf
  | cons t ts ih => exact ih (regWf_preserved hwf t)

theorem lookupTag_runCalls {s : RegistryState} {t v : Nat}
    (h : lookupTag t s.assigned = some v) (l : List Nat) :
    lookupTag t (runCalls l s).assigned = some v := by
  induction l generalizing s with
  | nil => exact h
  | cons u us ih => exact ih (lookupTag_preserved h u)

theorem getComponentTypeID_of_lookup {s : RegistryState} {t v : Nat}
    (h : lookupTag t s.assigned = some v) :
    GetComponentTypeID t s = (v, s) := by
  unfold GetComponentTypeID
  rw [h]

theorem lookup_after_get (s : RegistryState) (t : Nat) :
    lookupTag t (GetComponentTypeID t s).2.assigned =
      some (GetComponentTypeID t s).1 := by
  unfold GetComponentTypeID
  cases hl : lookupTag t s.assigned with
  | some id => exact hl
  | none => simp [GetUniqueComponentID, lookupTag]

theorem lookup_lt_lastID {s : RegistryState} (hwf : RegWf s) {t v : Nat}
    (h : lookupTag t s.assigned = some v) : v < s.lastID :=
  hwf.1 (t, v) (lookupTag_mem h)

theorem get_ne_of_lookup_ne {s : RegistryState} (hwf : RegWf s) {t1 t2 v : Nat}
    (hne : t2 ≠ t1) (h1 : lookupTag t1 s.assigned = some v) :
    (GetComponentTypeID t2 s).1 ≠ v := by
  unfold GetComponentTypeID
  cases hl : lookupTag t2 s.assigned with
  | some id2 =>
      intro he
      subst he
      exact hne (hwf.2.2 (t2, id2) (lookupTag_mem hl) (t1, id2) (lookupTag_mem h1) rfl)
  | none =>
      simp only [GetUniqueComponentID]
      exact Nat.ne_of_gt (lookup_lt_lastID hwf h1)

theorem lastID_monotone_get (s : RegistryState) (t : Nat) :
    s.lastID ≤ (GetComponentTypeID t s).2.lastID := by
  unfold GetComponentTypeID
  cases lookupTag t s.assigned with
  | some id => exact Nat.le_refl _
  | none => exact Nat.le_succ _

/-- C1: in any well-formed registry state, `GetComponentTypeID` is stable
(every later call for the same tag, across any intervening calls, returns what
the first call returned), injective (a call for a distinct tag never returns
that value), and draws fresh IDs from the monotonically increasing counter,
which starts at `0` in the initial state and hands out exactly `lastID` on a
first call. -/
theorem getComponentTypeID_stable_injective
    (s : RegistryState) (t1 t2 : Nat) (l : List Nat)
    (hwf : RegWf s) (hne : t1 ≠ t2) :
    RegistryState.init.lastID = 0 ∧
    (lookupTag t1 s.assigned = none →
      (GetComponentTypeID t1 s).1 = s.lastID ∧
      (GetComponentTypeID t1 s).2.lastID = s.lastID + 1) ∧
    s.lastID ≤ (GetComponentTypeID t1 s).2.lastID ∧
    (GetComponentTypeID t1 (runCalls l (GetComponentTypeID t1 s).2)).1 =
      (GetComponentTypeID t1 s).1 ∧
    (GetComponentTypeID t2 (runCalls l (GetComponentTypeID t1 s).2)).1 ≠
      (GetComponentTypeID t1 s).1 := by
  refine ⟨rfl, ?_, lastID_monotone_get s t1, ?_, ?_⟩
  · intro h
    simp [GetComponentTypeID, h, GetUniqueComponentID]
  · have hb := lookup_after_get s t1
    rw [getComponentTypeID_of_lookup (lookupTag_runCalls hb l)]
  · have hb := lookup_after_get s t1
    have hwf2 := regWf_runCalls (regWf_preserved hwf t1) l
    exact get_ne_of_lookup_ne hwf2 (Ne.symm hne) (lookupTag_runCalls hb l)

/-- Concrete instantiation of the C1 theorem at the initial registry state,
tags `0` and `1`, with intervening calls `[2, 0, 1]`. -/
theorem getComponentTypeID_stable_injective_witness :
    RegWf RegistryState.init ∧ (0 : Nat) ≠ 1 ∧
    (RegistryState.init.lastID = 0 ∧
     (lookupTag 0 RegistryState.init.assigned = none →
       (GetComponentTypeID 0 RegistryState.init).1 = RegistryState.init.lastID ∧
       (GetComponentTypeID 0 RegistryState.init).2.lastID =
         RegistryState.init.lastID + 1) ∧
     RegistryState.init.lastID ≤ (GetComponentTypeID 0 RegistryState.init).2.lastID ∧
     (GetComponentTypeID 0
         (runCalls [2, 0, 1] (GetComponentTypeID 0 RegistryState.init).2)).1 =
       (GetComponentTypeID 0 RegistryState.init).1 ∧
     (GetComponentTypeID 1
         (runCalls [2, 0, 1] (GetComponentTypeID 0 RegistryState.init).2)).1 ≠
       (GetComponentTypeID 0 RegistryState.init).1) :=
  ⟨by decide, by decide,
    getComponentTypeID_stable_injective RegistryState.init 0 1 [2, 0, 1]
      (by decide) (by decide)⟩

/-! ## Entity-level lemmas -/

theorem applyOp_preserves_slot {e : Entity} {cid : Fin 32} {ref : Nat}
    (h1 : e.componentBitset cid = true) (h2 : e.componentArray cid = some ref)
    (op : EntityOp) :
    (e.applyOp op).componentBitset cid = true ∧
      (e.applyOp op).componentArray cid = some ref := by
  cases op with
  | addComp cid2 ref2 =>
      by_cases hb : e.HasComponent cid2 = true
      · simp [Entity.applyOp, Entity.AddComponent, hb, h1, h2]
      · have hne : cid ≠ cid2 := by
          intro he
          rw [← he] at hb
          exact hb h1
        simp only [Entity.applyOp, Entity.AddComponent, hb, if_neg,
          Bool.not_eq_true] at *
        simp [Entity.AddComponent, hb, Function.update_noteq hne, h1, h2]
  | destroy => exact ⟨h1, h2⟩
  | enable => exact ⟨h1, h2⟩
  | disable => exact ⟨h1, h2⟩
  | addGroupBit g => exact ⟨h1, h2⟩
  | delGroupBit g => exact ⟨h1, h2⟩

theorem applyOps_preserves_slot {e : Entity} {cid : Fin 32} {ref : Nat}
    (h1 : e.componentBitset cid = true) (h2 : e.componentArray cid = some ref)
    (ops : List EntityOp) :
    (e.applyOps ops).componentBitset cid = true ∧
      (e.applyOps ops).componentArray cid = some ref := by
  induction ops generalizing e with
  | nil => exact ⟨h1, h2⟩
  | cons op rest ih =>
      have hstep := applyOp_preserves_slot h1 h2 op
      exact ih hstep.1 hstep.2

/-- C2: on an entity with no `T` attached, `AddComponent` succeeds, returns the
fresh component reference, makes `HasComponent` true, and `GetComponent`
returns that same reference on every later call, across any sequence of
further entity mutations (the framework offers no component removal). -/
theorem addComponent_getComponent_stable
    (e : Entity) (cid : Fin 32) (ref : Nat)
    (h : e.HasComponent cid = false) :
    ∃ e2, e.AddComponent cid ref = some (e2, ref) ∧
      e2.HasComponent cid = true ∧
      e2.GetComponent cid = some ref ∧
      ∀ ops : List EntityOp, (e2.applyOps ops).GetComponent cid = some ref := by
  refine ⟨{ e with
      components := e.components ++ [⟨cid, ref⟩]
      componentArray := Function.update e.componentArray cid (some ref)
      componentBitset := Function.update e.componentBitset cid true }, ?_, ?_, ?_, ?_⟩
  · simp [Entity.AddComponent, h]
  · simp [Entity.HasComponent]
  · simp [Entity.GetComponent, Entity.HasComponent]
  · intro ops
    have hb : (Function.update e.componentBitset cid true : Fin 32 → Bool) cid = true := by
      simp
    have ha : (Function.update e.componentArray cid (some ref) : Fin 32 → Option Nat) cid
        = some ref := by simp
    have hinv := applyOps_preserves_slot (e := { e with
      components := e.components ++ [⟨cid, ref⟩]
      componentArray := Function.update e.componentArray cid (some ref)
      componentBitset := Function.update e.componentBitset cid true }) hb ha ops
    simp [Entity.GetComponent, Entity.HasComponent, hinv.1, hinv.2]

/-- Concrete instantiation of the C2 theorem on a fresh entity, slot `0`,
component address `5`. -/
theorem addComponent_getComponent_stable_witness :
    Entity.new.HasComponent 0 = false ∧
    ∃ e2, Entity.new.AddComponent 0 5 = some (e2, 5) ∧
      e2.HasComponent 0 = true ∧
      e2.GetComponent 0 = some 5 ∧
      ∀ ops : List EntityOp, (e2.applyOps ops).GetComponent 0 = some 5 :=
  ⟨by decide, addComponent_getComponent_stable Entity.new 0 5 (by decide)⟩

/-- C8: a duplicate `AddComponent<T>` is rejected by the assertion. On an
entity with a `T` attached, `AddComponent<T>` traps (`none`, no mutation); on
an entity without one it succeeds, appending exactly one component (no
replacement, no duplicate), after which a second call for the same `T` traps
for every construction argument. -/
theorem addComponent_duplicate_trapped
    (e : Entity) (cid : Fin 32) (ref ref2 : Nat)
    (h : e.HasComponent cid = false) :
    (∀ eA : Entity, eA.HasComponent cid = true → ∀ r, eA.AddComponent cid r = none) ∧
    ∃ e2, e.AddComponent cid ref = some (e2, ref) ∧
      e2.components = e.components ++ [⟨cid, ref⟩] ∧
      e2.AddComponent cid ref2 = none := by
  constructor
  · intro eA hA r
    simp [Entity.AddComponent, hA]
  · refine ⟨{ e with
      components := e.components ++ [⟨cid, ref⟩]
      componentArray := Function.update e.componentArray cid (some ref)
      componentBitset := Function.update e.componentBitset cid true }, ?_, rfl, ?_⟩
    · simp [Entity.AddComponent, h]
    · simp [Entity.AddComponent, Entity.HasComponent]

/-- Concrete instantiation of the C8 theorem on a fresh entity, slot `0`,
component addresses `5` then `7`. -/
theorem addComponent_duplicate_trapped_witness :
    Entity.new.HasComponent 0 = false ∧
    ((∀ eA : Entity, eA.HasComponent 0 = true → ∀ r, eA.AddComponent 0 r = none) ∧
     ∃ e2, Entity.new.AddComponent 0 5 = some (e2, 5) ∧
       e2.components = Entity.new.components ++ [⟨0, 5⟩] ∧
       e2.AddComponent 0 7 = none) :=
  ⟨by decide, addComponent_duplicate_trapped Entity.new 0 5 7 (by decide)⟩

/-! ## Manager-level lemmas -/

theorem filter_filter_self {α : Type} (p : α → Bool) (l : List α) :
    (l.filter p).filter p = l.filter p := by
  induction l with
  | nil => rfl
  | cons x xs ih =>
      by_cases h : p x = true <;> simp [List.filter_cons, h, ih]

theorem flatMap_if_eq_filter_flatMap {α β : Type} (l : List α) (p : α → Bool)
    (f : α → List β) :
    (l.flatMap fun a => if p a then f a else []) = (l.filter p).flatMap f := by
  induction l with
  | nil => rfl
  | cons x xs ih =>
      by_cases h : p x = true <;>
        simp [List.flatMap_cons, List.filter_cons, h, ih]

/-- C3: `Refresh` compacts, for every group, the bucket down to exactly the
back-references whose target is alive and still a member of that group, and
compacts the canonical collection down to exactly the alive entities; both
compactions preserve the relative order of survivors (sublists of the
originals). -/
theorem refresh_compacts (m : EntityManager) :
    (∀ g : Fin 32,
      (m.Refresh.groupedEntities g).Sublist (m.groupedEntities g) ∧
      ∀ eid, eid ∈ m.Refresh.groupedEntities g ↔
        (eid ∈ m.groupedEntities g ∧ (m.store eid).IsAlive = true ∧
          (m.store eid).HasGroup g = true)) ∧
    ((m.Refresh.entities).Sublist m.entities ∧
      ∀ eid, eid ∈ m.Refresh.entities ↔
        (eid ∈ m.entities ∧ (m.store eid).IsAlive = true)) := by
  refine ⟨fun g => ⟨?_, fun eid => ?_⟩, ?_, fun eid => ?_⟩
  · exact List.filter_sublist _
  · simp [EntityManager.Refresh, List.mem_filter, Bool.and_eq_true, and_assoc]
  · exact List.filter_sublist _
  · simp [EntityManager.Refresh, List.mem_filter]

/-- C4: destroying an entity leaves the canonical collection and every group
bucket physically unchanged (it may still appear everywhere), but after one
`Refresh` it is gone from the canonical collection and from every group
bucket, whatever its `active` flag. -/
theorem destroy_refresh_removes (m : EntityManager) (eid : Nat) :
    ((m.DestroyEntity eid).entities = m.entities ∧
     ∀ g : Fin 32, (m.DestroyEntity eid).groupedEntities g = m.groupedEntities g) ∧
    eid ∉ ((m.DestroyEntity eid).Refresh).entities ∧
    ∀ g : Fin 32, eid ∉ ((m.DestroyEntity eid).Refresh).groupedEntities g := by
  have hdead : ((m.DestroyEntity eid).store eid).IsAlive = false := by
    simp [EntityManager.DestroyEntity, EntityManager.updateEntity,
      Entity.Destroy, Entity.IsAlive]
  refine ⟨⟨rfl, fun g => rfl⟩, ?_, fun g => ?_⟩
  · intro hmem
    rw [EntityManager.Refresh] at hmem
    simp [List.mem_filter, hdead] at hmem
  · intro hmem
    rw [EntityManager.Refresh] at hmem
    simp [List.mem_filter, hdead] at hmem

/-- C5: group add is eager — `Entity::AddGroup` sets the membership bit and
synchronously appends the entity to the manager's bucket, so it is visible to
`GetEntitiesByGroup` before any refresh; group removal is lazy —
`Entity::DelGroup` clears the bit only, touching no bucket, and the entity
disappears from `GetEntitiesByGroup` only after the next `Refresh`. -/
theorem addGroup_eager_delGroup_lazy (m : EntityManager) (eid : Nat) (g : Fin 32) :
    ((m.EntityAddGroup eid g).store eid).HasGroup g = true ∧
    (m.EntityAddGroup eid g).GetEntitiesByGroup g =
      m.GetEntitiesByGroup g ++ [eid] ∧
    eid ∈ (m.EntityAddGroup eid g).GetEntitiesByGroup g ∧
    ((m.EntityDelGroup eid g).store eid).HasGroup g = false ∧
    (∀ g2 : Fin 32, (m.EntityDelGroup eid g).groupedEntities g2 =
      m.groupedEntities g2) ∧
    eid ∉ ((m.EntityDelGroup eid g).Refresh).GetEntitiesByGroup g := by
  refine ⟨?_, ?_, ?_, ?_, fun g2 => rfl, ?_⟩
  · simp [EntityManager.EntityAddGroup, EntityManager.AddToGroup,
      EntityManager.updateEntity, Entity.HasGroup]
  · simp [EntityManager.EntityAddGroup, EntityManager.AddToGroup,
      EntityManager.updateEntity, EntityManager.GetEntitiesByGroup]
  · simp [EntityManager.EntityAddGroup, EntityManager.AddToGroup,
      EntityManager.updateEntity, EntityManager.GetEntitiesByGroup]
  · simp [EntityManager.EntityDelGroup, EntityManager.updateEntity,
      Entity.DelGroup, Entity.HasGroup]
  · intro hmem
    have hbit : ((m.EntityDelGroup eid g).store eid).HasGroup g = false := by
      simp [EntityManager.EntityDelGroup, EntityManager.updateEntity,
        Entity.DelGroup, Entity.HasGroup]
    rw [EntityManager.Refresh] at hmem
    simp [EntityManager.GetEntitiesByGroup, List.mem_filter, hbit] at hmem

/-- C6: the manager's update pass invokes the update hooks of exactly the
active entities, visiting entities in their insertion order into the canonical
collection and, within one entity, components in attachment order: the trace
equals the flat concatenation, over the active-filtered canonical collection,
of each entity's component list in order. -/
theorem update_visits_active_in_order (m : EntityManager) :
    m.UpdateTrace =
      (m.entities.filter fun eid => (m.store eid).IsActive).flatMap
        fun eid => (m.store eid).components.map fun c => (eid, c.ref) := by
  unfold EntityManager.UpdateTrace Entity.UpdateTrace
  exact flatMap_if_eq_filter_flatMap m.entities _ _

/-- C7: `Refresh` is idempotent — a second refresh with no intervening
mutation changes neither the canonical collection nor any group bucket. -/
theorem refresh_idempotent (m : EntityManager) : m.Refresh.Refresh = m.Refresh := by
  obtain ⟨ents, store, groups, nid⟩ := m
  simp only [EntityManager.Refresh, EntityManager.mk.injEq]
  refine ⟨?_, trivial, ?_, trivial⟩
  · exact filter_filter_self _ _
  · funext i
    exact filter_filter_self _ _

/-- C9: `AddToGroup` does not deduplicate — calling `Entity::AddGroup` twice
for the same (entity, group) pair appends two separate back-references, so
`GetEntitiesByGroup` contains the entity at least twice, and a `Refresh`
retains both occurrences while the entity is alive with the membership bit
set. -/
theorem addToGroup_no_dedup (m : EntityManager) (eid : Nat) (g : Fin 32)
    (halive : (m.store eid).IsAlive = true) :
    ((m.EntityAddGroup eid g).EntityAddGroup eid g).groupedEntities g =
      m.groupedEntities g ++ [eid, eid] ∧
    2 ≤ (((m.EntityAddGroup eid g).EntityAddGroup eid g).GetEntitiesByGroup g).count eid ∧
    ((((m.EntityAddGroup eid g).EntityAddGroup eid g).Refresh).groupedEntities g).count eid =
      (((m.EntityAddGroup eid g).EntityAddGroup eid g).groupedEntities g).count eid := by
  have hbucket : ((m.EntityAddGroup eid g).EntityAddGroup eid g).groupedEntities g =
      m.groupedEntities g ++ [eid, eid] := by
    simp [EntityManager.EntityAddGroup, EntityManager.AddToGroup,
      EntityManager.updateEntity]
  have hal : (((m.EntityAddGroup eid g).EntityAddGroup eid g).store eid).IsAlive
      = true := by
    simpa [EntityManager.EntityAddGroup, EntityManager.AddToGroup,
      EntityManager.updateEntity, Entity.IsAlive] using halive
  have hgr : (((m.EntityAddGroup eid g).EntityAddGroup eid g).store eid).HasGroup g
      = true := by
    simp [EntityManager.EntityAddGroup, EntityManager.AddToGroup,
      EntityManager.updateEntity, Entity.HasGroup]
  refine ⟨hbucket, ?_, ?_⟩
  · rw [EntityManager.GetEntitiesByGroup, hbucket]
    simp [List.count_append]
  · simp only [EntityManager.Refresh]
    exact List.count_filter (by simp [hal, hgr])

/-- Concrete instantiation of the C9 theorem: the one-entity manager, entity
`0` (alive), group `3`. -/
theorem addToGroup_no_dedup_witness :
    (managerW.store 0).IsAlive = true ∧
    (((managerW.EntityAddGroup 0 3).EntityAddGroup 0 3).groupedEntities 3 =
        managerW.groupedEntities 3 ++ [0, 0] ∧
      2 ≤ (((managerW.EntityAddGroup 0 3).EntityAddGroup 0 3).GetEntitiesByGroup 3).count 0 ∧
      ((((managerW.EntityAddGroup 0 3).EntityAddGroup 0 3).Refresh).groupedEntities 3).count 0 =
        (((managerW.EntityAddGroup 0 3).EntityAddGroup 0 3).groupedEntities 3).count 0) :=
  ⟨by decide, addToGroup_no_dedup managerW 0 3 (by decide)⟩

/-- C10: `Refresh` never mutates an entity it keeps — it only drops container
entries. Every alive entity stays in the canonical collection and the whole
store (every entity's flags, components, bitsets, group bits) is untouched. -/
theorem refresh_frame_on_survivors (m : EntityManager) (eid : Nat)
    (hmem : eid ∈ m.entities) (halive : (m.store eid).IsAlive = true) :
    eid ∈ m.Refresh.entities ∧ m.Refresh.store eid = m.store eid ∧
    m.Refresh.store = m.store := by
  refine ⟨?_, rfl, rfl⟩
  simp only [EntityManager.Refresh]
  exact List.mem_filter.mpr ⟨hmem, halive⟩

/-- Concrete instantiation of the C10 theorem: the one-entity manager, entity
`0` (alive). -/
theorem refresh_frame_on_survivors_witness :
    0 ∈ managerW.entities ∧ (managerW.store 0).IsAlive = true ∧
    (0 ∈ managerW.Refresh.entities ∧ managerW.Refresh.store 0 = managerW.store 0 ∧
      managerW.Refresh.store = managerW.store) :=
  ⟨by decide, by decide, refresh_frame_on_survivors managerW 0 (by decide) (by decide)⟩
